import Mathlib

set_option maxHeartbeats 1000000

/-!
Shallow embedding of the xmallow core (src/xmallow/__init__.py): the field
descriptor hierarchy (Field, First, Attribute, Boolean and the alias
classes), the schema registry built by SchemaMeta, and Schema.load
orchestration.  The external lxml collaborators are abstracted: an element
handle carries exactly what the core reads (text content and the attribute
mapping), and path-query resolution root.xpath(path) is a parameter
Q : Elem → String → List Elem supplied to every operation.
-/

namespace Xmallow

/-- Python values flowing through the engine: text, numbers, booleans,
None, lists of extracted results, and dict results produced by schemas. -/
inductive Value where
  | none
  | bool (b : Bool)
  | int (n : Int)
  | str (s : String)
  | list (vs : List Value)
  | dict (entries : List (String × Value))

/-- An element handle: the parts of an lxml Element the core reads
directly (tag name, attribute mapping, text content, which is None for an
empty element).  Tree navigation happens only through the query
parameter. -/
structure Elem where
  tag : String
  attrib : List (String × String)
  text : Option String

/-- The exception classes raised by the module: its own hierarchy
(lines 9-18) plus the Python builtins it actually raises (ValueError in
Attribute.__init__, TypeError in Schema.load and failing casts). -/
inductive ErrKind where
  | xmallowError
  | validationError
  | missingFieldError
  | valueError
  | typeError
deriving DecidableEq

/-- A raised exception: its class and its message (None for a bare
raise MissingFieldError). -/
structure Err where
  kind : ErrKind
  msg : Option String
deriving DecidableEq

/-- A field's path attribute: a single expression for the base classes, an
iterable of alternatives for First. -/
inductive PathSpec where
  | single (p : String)
  | alts (ps : List String)

/-- How self.path prints inside the diagnostic f-string of line 83: a
plain string prints as itself, a list prints in Python list notation with
quoted items. -/
def PathSpec.render : PathSpec → String
  | .single p => p
  | .alts ps =>
      "[" ++ String.intercalate ", " (ps.map (fun p => "\x27" ++ p ++ "\x27")) ++ "]"

/-- The concrete descriptor class, which decides the get_tags and extract
overrides.  The alias classes (String, Int, Float, List, Nested) reuse the
base behaviour and differ only in construction-time defaults. -/
inductive FVariant where
  | base
  | first
  | attr (a : String)
  | boolean

/-- The runtime classification Field.load performs on self.default
(lines 76-91): an Exception instance, an Exception subclass, some other
callable, or a plain value.  The tags mirror the isinstance checks, whose
if/elif order makes the four cases mutually exclusive. -/
inductive DefaultV where
  | errInstance (e : Err)
  | errClass (k : ErrKind)
  | producer (fn : Unit → Value)
  | literal (v : Value)

mutual
/-- The runtime classification Field.extract performs on self.cast
(lines 49-65): a Field, a Schema, a plain function (types.FunctionType,
which receives the element handle), or anything else callable, which
receives the element's text (the primitive-constructor path). -/
inductive CastV where
  | fieldC (f : FieldD)
  | schemaC (s : SchemaD)
  | funC (fn : Elem → Except Err Value)
  | ctorC (fn : Option String → Except Err Value)

/-- A field descriptor: the attributes of class Field (lines 24-42).  The
meta side-channel is not stored here because the source keeps it on the
class, not the instance; see initKwargsMeta and FieldD.observedMeta. -/
inductive FieldD where
  | mk (variant : FVariant) (path : PathSpec) (cast : CastV)
      (default : DefaultV) (many : Bool) (required : Option Bool)

/-- A schema: the _fields registry in its iteration order, the
ignore_missing flag, and the post_load hook.  dict_type is modelled as the
default dict (no claim exercises a custom container). -/
inductive SchemaD where
  | mk (fields : List (String × FieldD)) (ignore_missing : Bool)
      (post_load : List (String × Value) → Value)
end

def FieldD.variant : FieldD → FVariant
  | .mk v _ _ _ _ _ => v

def FieldD.path : FieldD → PathSpec
  | .mk _ p _ _ _ _ => p

def FieldD.cast : FieldD → CastV
  | .mk _ _ c _ _ _ => c

def FieldD.default : FieldD → DefaultV
  | .mk _ _ _ d _ _ => d

def FieldD.many : FieldD → Bool
  | .mk _ _ _ _ m _ => m

def FieldD.required : FieldD → Option Bool
  | .mk _ _ _ _ _ r => r

def SchemaD.fields : SchemaD → List (String × FieldD)
  | .mk fs _ _ => fs

def SchemaD.ignore_missing : SchemaD → Bool
  | .mk _ im _ => im

def SchemaD.post_load : SchemaD → (List (String × Value) → Value)
  | .mk _ _ pl => pl

/-- Boolean.truthy (line 138). -/
def booleanTruthy : List String :=
  ["1", "true", "yes", "Success", "success", "SUCCESS", "ok"]

/-- Boolean.falsy (line 139). -/
def booleanFalsy : List String :=
  ["0", "false", "no", "Failure", "failure", "FAILURE", "error"]

/-- Key membership test on an ordered mapping. -/
def hasKey (d : List (String × α)) (k : String) : Bool :=
  d.any (fun kv => kv.1 == k)

/-- Python dict item assignment d[k] = v: an existing key keeps its
position and gets the new value, a new key is appended. -/
def dictSet (d : List (String × α)) (k : String) (v : α) : List (String × α) :=
  if hasKey d k then d.map (fun kv => if kv.1 == k then (k, v) else kv)
  else d ++ [(k, v)]

/-- First.get_tags loop (lines 104-113): try each path in order, keep the
full match list of the first path that matches; when nothing matches the
result is the last (empty) query result, i.e. the empty list. -/
def firstHit (q : String → List Elem) : List String → List Elem
  | [] => []
  | p :: ps =>
      let tags := q p
      if tags.isEmpty then firstHit q ps else tags

/-- get_tags, dispatched on the descriptor class.  Base classes
(lines 44-47) query the single path and truncate to the first match unless
many is set; First (lines 104-113) returns the full match list of the
first alternative that matches.  A First whose path is a plain string
iterates its characters, exactly as Python iteration over a string does;
a base field whose path is a list would be rejected by the query provider
(lxml raises), and is not constructible through the constructors below, so
that branch returns the empty list and no theorem exercises it. -/
def FieldD.get_tags (Q : Elem → String → List Elem) (f : FieldD) (root : Elem) :
    List Elem :=
  match f.variant with
  | .first =>
      match f.path with
      | .alts ps => firstHit (Q root) ps
      | .single p => firstHit (Q root) (p.toList.map (fun ch => ch.toString))
  | _ =>
      match f.path with
      | .single p =>
          let tags := Q root p
          if f.many then tags else tags.take 1
      | .alts _ => []

/-- The no-data branch of Field.load (lines 76-91): raise an Exception
instance as-is; instantiate and raise an Exception subclass with the
No results diagnostic naming self.path; call any other callable and
return its result; return anything else verbatim. -/
def defaultResolve (f : FieldD) : Except Err Value :=
  match f.default with
  | .errInstance e => .error e
  | .errClass k => .error (Err.mk k (some ("No results: " ++ f.path.render)))
  | .producer fn => .ok (fn ())
  | .literal v => .ok v

/-- Attribute.extract line 130 calls self.cast directly on the attribute
string.  A text-consuming constructor receives the string; a Field or
Schema instance is not callable in Python, hence a TypeError.  A plain
element-consuming function is not representable applied to a string in
this typed embedding (no claim exercises that combination), so it is also
mapped to a TypeError. -/
def CastV.callOnString (c : CastV) (s : String) : Except Err Value :=
  match c with
  | .ctorC fn => fn (some s)
  | .funC _ => .error (Err.mk .typeError (some "unmodelled: plain function applied to an attribute string"))
  | .fieldC _ => .error (Err.mk .typeError (some "Field object is not callable"))
  | .schemaC _ => .error (Err.mk .typeError (some "Schema object is not callable"))

/-- How the type of a value prints in the TypeError message of
Schema.load line 243. -/
def pyTypeName : Value → String
  | .none => "NoneType"
  | .bool _ => "bool"
  | .int _ => "int"
  | .str _ => "str"
  | .list _ => "list"
  | .dict _ => "dict"

mutual
/-- Field.extract (lines 49-65) together with its overrides
Attribute.extract (lines 126-132) and Boolean.extract (lines 141-148),
dispatched on the descriptor class like Python method resolution does.
The base behaviour inspects self.cast: a Field or Schema handles the
element through its own load; a plain function receives the element
handle; anything else receives the element's text. -/
def FieldD.extract (Q : Elem → String → List Elem) (f : FieldD) (tag : Elem) :
    Except Err Value :=
  match f with
  | .mk (.attr a) _ c _ _ _ =>
      match tag.attrib.lookup a with
      | some s => CastV.callOnString c s
      | none => .error (Err.mk .missingFieldError none)
  | .mk .boolean _ _ _ _ _ =>
      .ok (.bool (match tag.text with
        | some t =>
            if t ∈ booleanTruthy then true
            else if t ∈ booleanFalsy then false
            else t ≠ ""
        | none => false))
  | .mk _ _ c _ _ _ =>
      match c with
      | .fieldC g => FieldD.load Q g tag
      | .schemaC s => SchemaD.load Q s tag
      | .funC fn => fn tag
      | .ctorC fn => fn tag.text

/-- The list comprehension results = [self.extract(tag) for tag in tags]
of line 72: extraction runs element by element in order and the first
exception aborts the whole comprehension. -/
def extractAll (Q : Elem → String → List Elem) (f : FieldD) (tags : List Elem) :
    Except Err (List Value) :=
  match tags with
  | [] => .ok []
  | t :: ts =>
      match FieldD.extract Q f t with
      | .error e => .error e
      | .ok v =>
          match extractAll Q f ts with
          | .error e => .error e
          | .ok vs => .ok (v :: vs)

/-- Field.load (lines 67-98): query the tags, extract each, then resolve
the default when no results, return the first result when many is false,
and the whole list otherwise. -/
def FieldD.load (Q : Elem → String → List Elem) (f : FieldD) (root : Elem) :
    Except Err Value :=
  match extractAll Q f (FieldD.get_tags Q f root) with
  | .error e => .error e
  | .ok [] => defaultResolve f
  | .ok (r :: rs) => if f.many then .ok (.list (r :: rs)) else .ok r

/-- The per-field loop of Schema.load (lines 232-238): run each field in
registry order, store its value under its name; a MissingFieldError is
re-raised when the field's required is the identity True or the schema
does not ignore missing fields, and is swallowed (nothing stored, loop
continues) otherwise; any other exception propagates. -/
def loadFields (Q : Elem → String → List Elem) (im : Bool) (root : Elem)
    (fields : List (String × FieldD)) (data : List (String × Value)) :
    Except Err (List (String × Value)) :=
  match fields with
  | [] => .ok data
  | (name, f) :: rest =>
      match FieldD.load Q f root with
      | .ok v => loadFields Q im root rest (dictSet data name v)
      | .error e =>
          if e.kind = ErrKind.missingFieldError then
            if f.required = some true ∨ im = false then .error e
            else loadFields Q im root rest data
          else .error e

/-- Schema.load (lines 217-245) on an already-parsed element (the string
entry point just parses through the external provider first): run the
field loop, then post_load, then the dict-shape check of lines 242-243. -/
def SchemaD.load (Q : Elem → String → List Elem) (s : SchemaD) (root : Elem) :
    Except Err Value :=
  match s with
  | .mk fields im pl =>
      match loadFields Q im root fields [] with
      | .error e => .error e
      | .ok data =>
          match pl data with
          | .dict d => .ok (.dict d)
          | v => .error (Err.mk .typeError
              (some ("post_load() must return a dict or dict-like object, not " ++ pyTypeName v)))
end

/-- str as a text cast: str(tag.text), where str(None) is the string
None. -/
def castStr : CastV := .ctorC (fun t => .ok (.str (t.getD "None")))

/-- int as a text cast: int(None) raises TypeError, a non-numeric string
raises ValueError (numeric parsing modelled with String.toInt?). -/
def castInt : CastV :=
  .ctorC (fun t =>
    match t with
    | none => .error (Err.mk .typeError (some "int() argument must be a string, not NoneType"))
    | some s =>
        match s.toInt? with
        | some n => .ok (.int n)
        | none => .error (Err.mk .valueError (some ("invalid literal for int() with base 10: " ++ s))))

/-- Field.__init__ (lines 33-42): class-attribute defaults cast = str,
default = MissingFieldError, many = False, required = None, each
overridable (cast positionally, the rest through kwargs, here explicit
Option arguments).  The meta side effect of extra kwargs is modelled
separately by initKwargsMeta, since the instance carries no meta of its
own. -/
def Field.init (path : String) (cast : Option CastV) (default : Option DefaultV)
    (many : Option Bool) (required : Option (Option Bool)) : FieldD :=
  FieldD.mk .base (.single path) (cast.getD castStr)
    (default.getD (.errClass .missingFieldError)) (many.getD false)
    (required.getD none)

/-- First(paths, ...): same constructor as Field with the path iterable
stored as given. -/
def First.init (paths : List String) (cast : Option CastV) (default : Option DefaultV)
    (many : Option Bool) (required : Option (Option Bool)) : FieldD :=
  FieldD.mk .first (.alts paths) (cast.getD castStr)
    (default.getD (.errClass .missingFieldError)) (many.getD false)
    (required.getD none)

/-- Attribute.__init__ (lines 119-124): runs Field.__init__ then raises
ValueError (the builtin, with the message of line 122) when no attr name
was supplied. -/
def Attribute.init (path : String) (a : Option String) (cast : Option CastV)
    (default : Option DefaultV) (many : Option Bool)
    (required : Option (Option Bool)) : Except Err FieldD :=
  match a with
  | none => .error (Err.mk .valueError (some "An attribute name is required."))
  | some attrName =>
      .ok (FieldD.mk (.attr attrName) (.single path) (cast.getD castStr)
        (default.getD (.errClass .missingFieldError)) (many.getD false)
        (required.getD none))

/-- Nested.__init__ (lines 182-184): a base field whose cast is the given
schema. -/
def Nested.init (path : String) (schema : SchemaD) (default : Option DefaultV)
    (many : Option Bool) (required : Option (Option Bool)) : FieldD :=
  FieldD.mk .base (.single path) (.schemaC schema)
    (default.getD (.errClass .missingFieldError)) (many.getD false)
    (required.getD none)

/-- The kwargs loop of Field.__init__ (lines 38-42), restricted to its
effect on the meta mapping: a recognised name (default, many, required)
sets the corresponding attribute and leaves meta alone; any other name
runs self.meta.update(key=value), which stores the value under the
literal string key (the supplied keyword name is discarded by that
spelling), and it mutates the mapping in place.  Since meta is the class
attribute Field.meta (line 31) and no instance ever assigns its own, the
mapping threaded here is the one shared dict of the whole class. -/
def initKwargsMeta (kwargs : List (String × Value)) (meta : List (String × Value)) :
    List (String × Value) :=
  kwargs.foldl
    (fun m kv =>
      if kv.1 = "default" ∨ kv.1 = "many" ∨ kv.1 = "required" then m
      else dictSet m "key" kv.2)
    meta

/-- Field.meta (line 31): the single class-level mapping, initially
empty. -/
def fieldClassMeta0 : List (String × Value) := []

/-- Reading f.meta on a descriptor instance: the instance holds no own
copy (Field.__init__ never assigns self.meta, it only mutates it), so
Python attribute lookup falls through to the shared class attribute,
whatever the instance is. -/
def FieldD.observedMeta (classMeta : List (String × Value)) (_f : FieldD) :
    List (String × Value) := classMeta

/-- The dict comprehension of SchemaMeta.__init__ line 197: insert the
chained pairs left to right into a fresh dict, with Python dict insertion
semantics (an existing key is updated in place, a new key appended). -/
def dictOfPairs (ps : List (String × α)) : List (String × α) :=
  ps.foldl (fun d kv => dictSet d kv.1 kv.2) []

/-- SchemaMeta.__init__ (lines 190-197): the subclass registry is the
dict comprehension over chain(base_fields.items(), fields.items()), where
base_fields is the inherited registry and fields the descriptors declared
directly on the class, in declaration order. -/
def schemaFields (base_fields fields : List (String × FieldD)) :
    List (String × FieldD) :=
  dictOfPairs (base_fields ++ fields)

/-- The default post_load (lines 247-249): return the data unchanged. -/
def postLoadId : List (String × Value) → Value := fun d => .dict d

/-! Unfolding equations for the mutually recursive operations, in the
shape the proofs below consume. -/

lemma extractAll_nil (Q : Elem → String → List Elem) (f : FieldD) :
    extractAll Q f [] = .ok [] := by
  simp [extractAll]

lemma extractAll_cons (Q : Elem → String → List Elem) (f : FieldD) (t : Elem)
    (ts : List Elem) :
    extractAll Q f (t :: ts) =
      match FieldD.extract Q f t with
      | .error e => .error e
      | .ok v =>
          match extractAll Q f ts with
          | .error e => .error e
          | .ok vs => .ok (v :: vs) := by
  rw [extractAll]

lemma fieldLoad_unfold (Q : Elem → String → List Elem) (f : FieldD) (root : Elem) :
    FieldD.load Q f root =
      match extractAll Q f (FieldD.get_tags Q f root) with
      | .error e => .error e
      | .ok [] => defaultResolve f
      | .ok (r :: rs) => if f.many then .ok (.list (r :: rs)) else .ok r := by
  rw [FieldD.load]

lemma loadFields_nil (Q : Elem → String → List Elem) (im : Bool) (root : Elem)
    (data : List (String × Value)) :
    loadFields Q im root [] data = .ok data := by
  simp [loadFields]

lemma loadFields_cons (Q : Elem → String → List Elem) (im : Bool) (root : Elem)
    (name : String) (f : FieldD) (rest : List (String × FieldD))
    (data : List (String × Value)) :
    loadFields Q im root ((name, f) :: rest) data =
      match FieldD.load Q f root with
      | .ok v => loadFields Q im root rest (dictSet data name v)
      | .error e =>
          if e.kind = ErrKind.missingFieldError then
            if f.required = some true ∨ im = false then .error e
            else loadFields Q im root rest data
          else .error e := by
  rw [loadFields]

lemma schemaLoad_unfold (Q : Elem → String → List Elem)
    (fields : List (String × FieldD)) (im : Bool)
    (pl : List (String × Value) → Value) (root : Elem) :
    SchemaD.load Q (SchemaD.mk fields im pl) root =
      match loadFields Q im root fields [] with
      | .error e => .error e
      | .ok data =>
          match pl data with
          | .dict d => .ok (.dict d)
          | v => .error (Err.mk .typeError
              (some ("post_load() must return a dict or dict-like object, not " ++ pyTypeName v))) := by
  rw [SchemaD.load]

/-! Concrete fixtures used by witnesses and counterexamples. -/

/-- A root element; the fixtures navigate only through the query
functions below. -/
def rootEx : Elem := ⟨"ROOT", [], none⟩

/-- A CD element carrying no attributes. -/
def elemNoId : Elem := ⟨"CD", [], some "t"⟩

/-- A query provider with no matches for any path. -/
def qNone : Elem → String → List Elem := fun _ _ => []

/-- A query provider resolving the path CD to the attribute-less CD
element. -/
def qCD : Elem → String → List Elem := fun _ p => if p = "CD" then [elemNoId] else []

/-- Two CD elements with text, in document order. -/
def elemC1 : Elem := ⟨"CD", [], some "one"⟩

/-- Second CD element. -/
def elemC2 : Elem := ⟨"CD", [], some "two"⟩

/-- A query provider resolving the path CD to both CD elements. -/
def qTwo : Elem → String → List Elem :=
  fun _ p => if p = "CD" then [elemC1, elemC2] else []

/-- Two B elements with text, in document order. -/
def elemB1 : Elem := ⟨"B", [], some "b1"⟩

/-- Second B element. -/
def elemB2 : Elem := ⟨"B", [], some "b2"⟩

/-- A query provider where path a has no matches and path b has two. -/
def qAB : Elem → String → List Elem :=
  fun _ p => if p = "b" then [elemB1, elemB2] else []

/-- A base field on path p with required=True and otherwise unconfigured
attributes. -/
def fReq : FieldD :=
  FieldD.mk .base (.single "p") castStr (.errClass .missingFieldError) false (some true)

/-- An unconfigured base field on path CD/NOPE. -/
def fPlain : FieldD :=
  FieldD.mk .base (.single "CD/NOPE") castStr (.errClass .missingFieldError) false none

/-- The MissingFieldError produced by fReq on a document without
matches. -/
def eMissP : Err := Err.mk .missingFieldError (some "No results: p")

/-! The claims. -/

/-- C1: in Schema.load's per-field loop, a missing-field error signalled
by a field's load is suppressed (no entry stored under the field's name,
the loop continues with the remaining fields) exactly when the schema's
ignore_missing is true and the field's required is not explicitly true;
otherwise the error propagates immediately and load returns it, with no
partial result. -/
theorem C1_missing_suppression (Q : Elem → String → List Elem) (im : Bool)
    (pl : List (String × Value) → Value) (name : String) (f : FieldD)
    (rest : List (String × FieldD)) (data : List (String × Value)) (root : Elem)
    (e : Err) (hf : FieldD.load Q f root = .error e)
    (he : e.kind = ErrKind.missingFieldError) :
    (¬f.required = some true → im = true →
        loadFields Q im root ((name, f) :: rest) data = loadFields Q im root rest data)
    ∧ (f.required = some true ∨ im = false →
        loadFields Q im root ((name, f) :: rest) data = .error e)
    ∧ (f.required = some true ∨ im = false →
        SchemaD.load Q (SchemaD.mk ((name, f) :: rest) im pl) root = .error e) := by
  refine ⟨fun hr him => ?_, fun h => ?_, fun h => ?_⟩
  · rw [loadFields_cons, hf]
    simp [he, hr, him]
  · rw [loadFields_cons, hf]
    simp [he, h]
  · rw [schemaLoad_unfold, loadFields_cons, hf]
    simp [he, h]

/-- C1 witness: a required=True field with no matches aborts the load of
a schema with ignore_missing=true. -/
theorem C1_missing_suppression_witness :
    (FieldD.load qNone fReq rootEx = .error eMissP)
    ∧ (eMissP.kind = ErrKind.missingFieldError)
    ∧ (SchemaD.load qNone (SchemaD.mk [("x", fReq)] true postLoadId) rootEx
        = .error eMissP) := by
  have hf : FieldD.load qNone fReq rootEx = .error eMissP := by
    simp [fieldLoad_unfold, FieldD.get_tags, qNone, fReq, FieldD.variant, FieldD.path,
      FieldD.many, extractAll_nil, defaultResolve, FieldD.default, PathSpec.render, eMissP]
  exact ⟨hf, rfl,
    (C1_missing_suppression qNone true postLoadId "x" fReq [] [] rootEx eMissP hf
      rfl).2.2 (Or.inl rfl)⟩

/-- C2: with no matched elements, Field.load resolves default by the
first matching rule, in order: an error instance is signalled as-is; an
error class is instantiated with the No results diagnostic naming the
field's path and signalled; a callable is invoked fresh on that call and
its result returned; anything else is returned verbatim.  With the
unconfigured class default (the MissingFieldError class), load signals a
MissingFieldError whose message carries the field's path. -/
theorem C2_default_resolution (Q : Elem → String → List Elem) (f : FieldD)
    (root : Elem) (h : FieldD.get_tags Q f root = []) :
    (∀ e, f.default = .errInstance e → FieldD.load Q f root = .error e)
    ∧ (∀ k, f.default = .errClass k →
        FieldD.load Q f root = .error (Err.mk k (some ("No results: " ++ f.path.render))))
    ∧ (∀ fn, f.default = .producer fn → FieldD.load Q f root = .ok (fn ()))
    ∧ (∀ v, f.default = .literal v → FieldD.load Q f root = .ok v)
    ∧ (f.default = .errClass .missingFieldError →
        FieldD.load Q f root =
          .error (Err.mk .missingFieldError (some ("No results: " ++ f.path.render)))) := by
  have hl : FieldD.load Q f root = defaultResolve f := by
    rw [fieldLoad_unfold, h, extractAll_nil]
  refine ⟨fun e hd => ?_, fun k hd => ?_, fun fn hd => ?_, fun v hd => ?_, fun hd => ?_⟩ <;>
    rw [hl] <;> simp [defaultResolve, hd]

/-- C2 witness: the unconfigured field on CD/NOPE with no matches signals
MissingFieldError with the path in its diagnostic. -/
theorem C2_default_resolution_witness :
    (FieldD.get_tags qNone fPlain rootEx = [])
    ∧ FieldD.load qNone fPlain rootEx
        = .error (Err.mk .missingFieldError (some ("No results: " ++ fPlain.path.render))) := by
  have h : FieldD.get_tags qNone fPlain rootEx = [] := by
    simp [FieldD.get_tags, fPlain, FieldD.variant, FieldD.path, FieldD.many, qNone]
  exact ⟨h, (C2_default_resolution qNone fPlain rootEx h).2.2.2.2 rfl⟩

/-- C5: Field.extract applies exactly one of three behaviours chosen by
inspecting cast: a Field or Schema cast handles the element through its
own load; a plain function receives the element handle itself; anything
else (the primitive-constructor path) receives the element's text
content. -/
theorem C5_extract_dispatch (Q : Elem → String → List Elem)
    (p : PathSpec) (d : DefaultV) (m : Bool) (r : Option Bool) (tag : Elem) :
    (∀ g : FieldD, FieldD.extract Q (FieldD.mk .base p (.fieldC g) d m r) tag
        = FieldD.load Q g tag)
    ∧ (∀ s : SchemaD, FieldD.extract Q (FieldD.mk .base p (.schemaC s) d m r) tag
        = SchemaD.load Q s tag)
    ∧ (∀ fn, FieldD.extract Q (FieldD.mk .base p (.funC fn) d m r) tag = fn tag)
    ∧ (∀ fn, FieldD.extract Q (FieldD.mk .base p (.ctorC fn) d m r) tag
        = fn tag.text) := by
  refine ⟨fun g => ?_, fun s => ?_, fun fn => ?_, fun fn => ?_⟩ <;>
    simp [FieldD.extract]

/-- The extraction comprehension produces one result per element. -/
lemma extractAll_ok_length (Q : Elem → String → List Elem) (f : FieldD) :
    ∀ tags vs, extractAll Q f tags = .ok vs → vs.length = tags.length := by
  intro tags
  induction tags with
  | nil =>
      intro vs h
      rw [extractAll_nil] at h
      cases h
      rfl
  | cons t ts ih =>
      intro vs h
      rw [extractAll_cons] at h
      cases hx : FieldD.extract Q f t with
      | error e => rw [hx] at h; simp at h
      | ok v =>
          rw [hx] at h
          cases hrest : extractAll Q f ts with
          | error e => rw [hrest] at h; simp at h
          | ok ws =>
              rw [hrest] at h
              simp only [Except.ok.injEq] at h
              subst h
              simp [ih ws hrest]

/-- C4: a base field with at least one matching element: with many=false,
get_tags already truncates the match list to its first element and load
returns exactly that element's extracted value, regardless of how many
elements matched; with many=true, get_tags keeps every match and load
returns a sequence with one entry per matched element, in document
order. -/
theorem C4_cardinality (Q : Elem → String → List Elem) (root : Elem) (p : String)
    (c : CastV) (d : DefaultV) (r : Option Bool) (e : Elem) (es : List Elem)
    (hq : Q root p = e :: es) :
    (FieldD.get_tags Q (FieldD.mk .base (.single p) c d false r) root = [e])
    ∧ (∀ v, FieldD.extract Q (FieldD.mk .base (.single p) c d false r) e = .ok v →
        FieldD.load Q (FieldD.mk .base (.single p) c d false r) root = .ok v)
    ∧ (FieldD.get_tags Q (FieldD.mk .base (.single p) c d true r) root = e :: es)
    ∧ (∀ vs, extractAll Q (FieldD.mk .base (.single p) c d true r) (e :: es) = .ok vs →
        vs.length = (e :: es).length
        ∧ FieldD.load Q (FieldD.mk .base (.single p) c d true r) root
            = .ok (.list vs)) := by
  have h1 : FieldD.get_tags Q (FieldD.mk .base (.single p) c d false r) root = [e] := by
    simp [FieldD.get_tags, FieldD.variant, FieldD.path, FieldD.many, hq]
  have h3 : FieldD.get_tags Q (FieldD.mk .base (.single p) c d true r) root = e :: es := by
    simp [FieldD.get_tags, FieldD.variant, FieldD.path, FieldD.many, hq]
  refine ⟨h1, fun v hv => ?_, h3, fun vs hvs => ?_⟩
  · rw [fieldLoad_unfold, h1, extractAll_cons, hv, extractAll_nil]
    simp [FieldD.many]
  · have hlen := extractAll_ok_length Q _ _ _ hvs
    refine ⟨hlen, ?_⟩
    rw [fieldLoad_unfold, h3, hvs]
    cases vs with
    | nil => simp at hlen
    | cons w ws => simp [FieldD.many]

/-- C4 witness: two CD matches; with many=false the load is the first
element's text, with many=true a two-element list in document order. -/
theorem C4_cardinality_witness :
    (qTwo rootEx "CD" = elemC1 :: [elemC2])
    ∧ (FieldD.extract qTwo (FieldD.mk .base (.single "CD") castStr
        (.errClass .missingFieldError) false none) elemC1 = .ok (.str "one"))
    ∧ (FieldD.load qTwo (FieldD.mk .base (.single "CD") castStr
        (.errClass .missingFieldError) false none) rootEx = .ok (.str "one"))
    ∧ (extractAll qTwo (FieldD.mk .base (.single "CD") castStr
        (.errClass .missingFieldError) true none) (elemC1 :: [elemC2])
        = .ok [.str "one", .str "two"])
    ∧ ([Value.str "one", Value.str "two"].length = (elemC1 :: [elemC2]).length
        ∧ FieldD.load qTwo (FieldD.mk .base (.single "CD") castStr
            (.errClass .missingFieldError) true none) rootEx
            = .ok (.list [.str "one", .str "two"])) := by
  have hq : qTwo rootEx "CD" = elemC1 :: [elemC2] := by simp [qTwo]
  have hx : FieldD.extract qTwo (FieldD.mk .base (.single "CD") castStr
      (.errClass .missingFieldError) false none) elemC1 = .ok (.str "one") := by
    simp [FieldD.extract, castStr, elemC1]
  have hvs : extractAll qTwo (FieldD.mk .base (.single "CD") castStr
      (.errClass .missingFieldError) true none) (elemC1 :: [elemC2])
      = .ok [.str "one", .str "two"] := by
    rw [extractAll_cons, extractAll_cons, extractAll_nil]
    simp [FieldD.extract, castStr, elemC1, elemC2]
  exact ⟨hq, hx,
    (C4_cardinality qTwo rootEx "CD" castStr (.errClass .missingFieldError) none
      elemC1 [elemC2] hq).2.1 _ hx, hvs,
    (C4_cardinality qTwo rootEx "CD" castStr (.errClass .missingFieldError) none
      elemC1 [elemC2] hq).2.2.2 _ hvs⟩

/-- C6: First.get_tags tries the alternative paths in declaration order
and returns the full match sequence of the first path with at least one
match, with no cardinality truncation even when many is false; when no
path matches it returns the empty sequence.  Consequently, with
many=false, load runs extraction over every element matched by the
winning path: an extraction error on any of them aborts load, and
otherwise all results but the first are discarded. -/
theorem C6_first_full_matches (Q : Elem → String → List Elem) (root : Elem)
    (c : CastV) (d : DefaultV) (r : Option Bool) :
    (∀ p ps m, Q root p ≠ [] →
        FieldD.get_tags Q (FieldD.mk .first (.alts (p :: ps)) c d m r) root = Q root p)
    ∧ (∀ p ps m, Q root p = [] →
        FieldD.get_tags Q (FieldD.mk .first (.alts (p :: ps)) c d m r) root
          = FieldD.get_tags Q (FieldD.mk .first (.alts ps) c d m r) root)
    ∧ (∀ m, FieldD.get_tags Q (FieldD.mk .first (.alts []) c d m r) root = [])
    ∧ (∀ ps v vs,
        extractAll Q (FieldD.mk .first (.alts ps) c d false r)
          (FieldD.get_tags Q (FieldD.mk .first (.alts ps) c d false r) root)
          = .ok (v :: vs) →
        FieldD.load Q (FieldD.mk .first (.alts ps) c d false r) root = .ok v)
    ∧ (∀ ps e2,
        extractAll Q (FieldD.mk .first (.alts ps) c d false r)
          (FieldD.get_tags Q (FieldD.mk .first (.alts ps) c d false r) root)
          = .error e2 →
        FieldD.load Q (FieldD.mk .first (.alts ps) c d false r) root = .error e2) := by
  refine ⟨fun p ps m h => ?_, fun p ps m h => ?_, fun m => ?_,
    fun ps v vs h => ?_, fun ps e2 h => ?_⟩
  · cases hq : Q root p with
    | nil => exact absurd hq h
    | cons t ts => simp [FieldD.get_tags, FieldD.variant, FieldD.path, firstHit, hq]
  · simp [FieldD.get_tags, FieldD.variant, FieldD.path, firstHit, h]
  · simp [FieldD.get_tags, FieldD.variant, FieldD.path, firstHit]
  · rw [fieldLoad_unfold, h]
    simp [FieldD.many]
  · rw [fieldLoad_unfold, h]

/-- C6 witness: First over paths a then b where only b matches, with two
matches: get_tags skips a, keeps the full match list of b untruncated
although many=false, and load extracts both elements before returning the
first result. -/
theorem C6_first_full_matches_witness :
    (FieldD.get_tags qAB (FieldD.mk .first (.alts ["a", "b"]) castStr
        (.errClass .missingFieldError) false none) rootEx
      = FieldD.get_tags qAB (FieldD.mk .first (.alts ["b"]) castStr
        (.errClass .missingFieldError) false none) rootEx)
    ∧ (FieldD.get_tags qAB (FieldD.mk .first (.alts ["b"]) castStr
        (.errClass .missingFieldError) false none) rootEx = qAB rootEx "b")
    ∧ (FieldD.load qAB (FieldD.mk .first (.alts ["a", "b"]) castStr
        (.errClass .missingFieldError) false none) rootEx = .ok (.str "b1")) := by
  have h1 := (C6_first_full_matches qAB rootEx castStr
    (.errClass .missingFieldError) none).2.1 "a" ["b"] false (by simp [qAB])
  have h2 := (C6_first_full_matches qAB rootEx castStr
    (.errClass .missingFieldError) none).1 "b" [] false (by simp [qAB, elemB1])
  have hx : extractAll qAB (FieldD.mk .first (.alts ["a", "b"]) castStr
      (.errClass .missingFieldError) false none)
      (FieldD.get_tags qAB (FieldD.mk .first (.alts ["a", "b"]) castStr
        (.errClass .missingFieldError) false none) rootEx)
      = .ok (.str "b1" :: [.str "b2"]) := by
    rw [h1, h2]
    have hb : qAB rootEx "b" = [elemB1, elemB2] := by simp [qAB]
    rw [hb, extractAll_cons, extractAll_cons, extractAll_nil]
    simp [FieldD.extract, castStr, elemB1, elemB2]
  exact ⟨h1, h2,
    (C6_first_full_matches qAB rootEx castStr
      (.errClass .missingFieldError) none).2.2.2.1 ["a", "b"] _ _ hx⟩

/-- An Attribute descriptor reading attribute id of the elements on path
CD, otherwise unconfigured. -/
def attrFieldEx : FieldD :=
  FieldD.mk (.attr "id") (.single "CD") castStr (.errClass .missingFieldError) false none

/-- A schema holding only that Attribute field, with ignore_missing=true
and the default post_load. -/
def schemaAttrIgnore : SchemaD := SchemaD.mk [("id", attrFieldEx)] true postLoadId

/-- A CD element with no text content. -/
def elemNoText : Elem := ⟨"CD", [], none⟩

/-- A query provider resolving the path CD to the text-less CD
element. -/
def qNoText : Elem → String → List Elem :=
  fun _ p => if p = "CD" then [elemNoText] else []

/-- An int-casting base field on path CD. -/
def fInt : FieldD :=
  FieldD.mk .base (.single "CD") castInt (.errClass .missingFieldError) false none

/-- The TypeError int raises when handed None. -/
def eIntNone : Err :=
  Err.mk .typeError (some "int() argument must be a string, not NoneType")

/-- C7 counterexample: the element on path CD is found (get_tags is
nonempty), the error arises inside Attribute.extract because the found
element lacks the attribute, the schema has ignore_missing=true — and
Schema.load succeeds by suppressing that extract-raised error, instead of
always aborting as a hard failure: the handler catches by exception
class, not by where the error arose. -/
theorem C7_counterexample :
    (FieldD.get_tags qCD attrFieldEx rootEx = [elemNoId])
    ∧ (FieldD.extract qCD attrFieldEx elemNoId
        = .error (Err.mk .missingFieldError none))
    ∧ (SchemaD.load qCD schemaAttrIgnore rootEx = .ok (.dict [])) := by
  refine ⟨?_, ?_, ?_⟩
  · simp [FieldD.get_tags, attrFieldEx, FieldD.variant, FieldD.path, FieldD.many, qCD]
  · simp [FieldD.extract, attrFieldEx, elemNoId]
  · simp [schemaAttrIgnore, schemaLoad_unfold, loadFields_cons, loadFields_nil,
      fieldLoad_unfold, FieldD.get_tags, qCD, attrFieldEx, FieldD.variant, FieldD.path,
      FieldD.many, extractAll_cons, extractAll_nil, FieldD.extract, elemNoId,
      FieldD.required, postLoadId]

/-- C7 (amended): an error raised inside a field's cast/extract step
propagates out of Field.load unchanged — only the zero-match case reaches
default resolution — and the schema loop re-raises it as a hard failure
whenever it is not a MissingFieldError, regardless of ignore_missing and
required; the handler however catches by exception class, so a
MissingFieldError raised inside extract on a found element (as the
Attribute variant raises for an absent attribute) is subject to the same
suppression policy as the zero-match case. -/
theorem C7_cast_error_policy (Q : Elem → String → List Elem) (im : Bool)
    (root : Elem) (name : String) (f : FieldD) (rest : List (String × FieldD))
    (data : List (String × Value)) (e : Err) :
    (∀ tags e2, FieldD.get_tags Q f root = tags → extractAll Q f tags = .error e2 →
        FieldD.load Q f root = .error e2)
    ∧ (FieldD.load Q f root = .error e → ¬e.kind = ErrKind.missingFieldError →
        loadFields Q im root ((name, f) :: rest) data = .error e)
    ∧ (∀ a p c d m r (tag : Elem), tag.attrib.lookup a = none →
        FieldD.extract Q (FieldD.mk (.attr a) p c d m r) tag
          = .error (Err.mk .missingFieldError none)) := by
  refine ⟨fun tags e2 ht he2 => ?_, fun hf hne => ?_, fun a p c d m r tag hl => ?_⟩
  · rw [fieldLoad_unfold, ht, he2]
  · rw [loadFields_cons, hf]
    simp [hne]
  · simp [FieldD.extract, hl]

/-- C7 witness: a failing int cast on a found, text-less element aborts
the load of a schema even with ignore_missing=true. -/
theorem C7_cast_error_policy_witness :
    (FieldD.get_tags qNoText fInt rootEx = [elemNoText])
    ∧ (extractAll qNoText fInt [elemNoText] = .error eIntNone)
    ∧ (FieldD.load qNoText fInt rootEx = .error eIntNone)
    ∧ (loadFields qNoText true rootEx [("n", fInt)] [] = .error eIntNone)
    ∧ (FieldD.extract qNoText attrFieldEx elemNoText
        = .error (Err.mk .missingFieldError none)) := by
  have ht : FieldD.get_tags qNoText fInt rootEx = [elemNoText] := by
    simp [FieldD.get_tags, fInt, FieldD.variant, FieldD.path, FieldD.many, qNoText]
  have he : extractAll qNoText fInt [elemNoText] = .error eIntNone := by
    rw [extractAll_cons]
    simp [FieldD.extract, fInt, castInt, elemNoText, eIntNone]
  have hload := (C7_cast_error_policy qNoText true rootEx "n" fInt [] [] eIntNone).1
    [elemNoText] eIntNone ht he
  exact ⟨ht, he, hload,
    (C7_cast_error_policy qNoText true rootEx "n" fInt [] [] eIntNone).2.1 hload
      (by simp [eIntNone]),
    (C7_cast_error_policy qNoText true rootEx "n" fInt [] [] eIntNone).2.2
      "id" (.single "CD") castStr (.errClass .missingFieldError) false none
      elemNoText rfl⟩

/-- A schema whose post_load returns a plain string instead of a
mapping. -/
def schemaBadPost : SchemaD := SchemaD.mk [] false (fun _ => .str "oops")

/-- C8 counterexample: the misconfiguration failures exist but carry the
Python builtin kinds, not the library's ValidationError: an Attribute
without an attr name raises ValueError, and a post_load returning a
non-mapping makes load raise TypeError. -/
theorem C8_counterexample :
    (Attribute.init "CD" none none none none none
        = .error (Err.mk .valueError (some "An attribute name is required.")))
    ∧ (ErrKind.valueError ≠ ErrKind.validationError)
    ∧ (SchemaD.load qNone schemaBadPost rootEx
        = .error (Err.mk .typeError
            (some ("post_load() must return a dict or dict-like object, not "
              ++ pyTypeName (.str "oops")))))
    ∧ (ErrKind.typeError ≠ ErrKind.validationError) := by
  refine ⟨rfl, by decide, ?_, by decide⟩
  simp [schemaBadPost, schemaLoad_unfold, loadFields_nil, pyTypeName]

/-- C8 (amended): misconfiguration is signalled with Python builtins
rather than the library's (never-raised) ValidationError: constructing an
Attribute field without an attr name fails with ValueError at
construction time, and a post_load hook returning a non-mapping value
makes load fail with TypeError rather than silently coercing the
result. -/
theorem C8_misconfiguration (path : String) (c : Option CastV) (d : Option DefaultV)
    (m : Option Bool) (r : Option (Option Bool)) :
    (Attribute.init path none c d m r
        = .error (Err.mk .valueError (some "An attribute name is required.")))
    ∧ (∀ (Q : Elem → String → List Elem) (root : Elem)
        (fields : List (String × FieldD)) (im : Bool)
        (pl : List (String × Value) → Value) (data : List (String × Value)),
        loadFields Q im root fields [] = .ok data →
        (∀ entries, pl data ≠ .dict entries) →
        SchemaD.load Q (SchemaD.mk fields im pl) root
          = .error (Err.mk .typeError
              (some ("post_load() must return a dict or dict-like object, not "
                ++ pyTypeName (pl data))))) := by
  refine ⟨rfl, fun Q root fields im pl data h hne => ?_⟩
  have hload : SchemaD.load Q (SchemaD.mk fields im pl) root
      = (match pl data with
         | .dict entries => .ok (.dict entries)
         | v => .error (Err.mk .typeError
             (some ("post_load() must return a dict or dict-like object, not "
               ++ pyTypeName v)))) := by
    rw [schemaLoad_unfold, h]
  rw [hload]
  cases hpd : pl data with
  | dict entries => exact absurd hpd (hne entries)
  | _ => rfl

/-- C8 witness: a post_load returning the string oops fails a load with
TypeError naming the type str. -/
theorem C8_misconfiguration_witness :
    (Attribute.init "CD" none (some castStr) none none none
        = .error (Err.mk .valueError (some "An attribute name is required.")))
    ∧ (loadFields qNone false rootEx [] [] = .ok [])
    ∧ (SchemaD.load qNone (SchemaD.mk [] false (fun _ => .str "oops")) rootEx
        = .error (Err.mk .typeError
            (some ("post_load() must return a dict or dict-like object, not "
              ++ pyTypeName (.str "oops"))))) := by
  have h : loadFields qNone false rootEx [] [] = .ok [] := loadFields_nil _ _ _ _
  exact ⟨(C8_misconfiguration "CD" (some castStr) none none none).1, h,
    (C8_misconfiguration "CD" (some castStr) none none none).2
      qNone rootEx [] false (fun _ => .str "oops") [] h (by intro entries; simp)⟩

/-- C9 (evaluating the code at the failing input): meta is the single
class-level dict Field.meta, mutated in place whenever any descriptor is
constructed with an extra keyword, so the meta observed on a different,
previously constructed and untouched descriptor changes with it: before
Field(..., note=1) the unrelated descriptor fPlain observes the empty
mapping, afterwards it observes the mapping holding key to 1 — the
side-channels of distinct descriptor instances are shared, not
per-instance. -/
theorem C9_meta_shared :
    (FieldD.observedMeta fieldClassMeta0 fPlain = [])
    ∧ (initKwargsMeta [("note", .int 1)] fieldClassMeta0 = [("key", .int 1)])
    ∧ (FieldD.observedMeta (initKwargsMeta [("note", .int 1)] fieldClassMeta0) fPlain
        ≠ FieldD.observedMeta fieldClassMeta0 fPlain) := by
  refine ⟨rfl, ?_, ?_⟩
  · simp [initKwargsMeta, fieldClassMeta0, dictSet, hasKey]
  · simp [FieldD.observedMeta, initKwargsMeta, fieldClassMeta0, dictSet, hasKey]

/-- Lookup in an ordered mapping (Python dict indexing; keys are unique
in every mapping the engine builds, and the first entry wins). -/
def dictGet (d : List (String × α)) (k : String) : Option α :=
  match d with
  | [] => none
  | kv :: rest => if kv.1 == k then some kv.2 else dictGet rest k

lemma dictGet_nil (k : String) : dictGet ([] : List (String × α)) k = none := rfl

lemma dictGet_cons (kv : String × α) (rest : List (String × α)) (k : String) :
    dictGet (kv :: rest) k = if kv.1 == k then some kv.2 else dictGet rest k := rfl

/-- Replacing the entries keyed k does not change lookups of other
keys. -/
lemma dictGet_map_replace_ne (k k2 : String) (v : α) (h : k2 ≠ k) :
    ∀ d : List (String × α),
      dictGet (d.map (fun kv => if kv.1 == k then (k, v) else kv)) k2
        = dictGet d k2 := by
  intro d
  induction d with
  | nil => rfl
  | cons kv d' ih =>
      by_cases hk : kv.1 = k
      · have hhead : (if kv.1 == k then (k, v) else kv) = (k, v) := by simp [hk]
        have hne1 : (k == k2) = false := beq_eq_false_iff_ne.mpr (Ne.symm h)
        have hne2 : (kv.1 == k2) = false := by rw [hk]; exact hne1
        simp only [List.map_cons, hhead, dictGet_cons, hne1, hne2, if_false]
        exact ih
      · have hhead : (if kv.1 == k then (k, v) else kv) = kv := by simp [hk]
        simp only [List.map_cons, hhead, dictGet_cons, ih]

/-- Replacing the entries keyed k makes lookup of k find the new value,
provided the key occurs. -/
lemma dictGet_map_replace_self (k : String) (v : α) :
    ∀ d : List (String × α), hasKey d k = true →
      dictGet (d.map (fun kv => if kv.1 == k then (k, v) else kv)) k = some v := by
  intro d
  induction d with
  | nil => intro h; simp [hasKey] at h
  | cons kv d' ih =>
      intro h
      by_cases hk : kv.1 = k
      · have hhead : (if kv.1 == k then (k, v) else kv) = (k, v) := by simp [hk]
        rw [List.map_cons, hhead, dictGet_cons]
        simp
      · have hhead : (if kv.1 == k then (k, v) else kv) = kv := by simp [hk]
        have h' : hasKey d' k = true := by simpa [hasKey, hk] using h
        rw [List.map_cons, hhead, dictGet_cons, if_neg (by simp [hk])]
        exact ih h'

/-- Appending a fresh entry makes lookup of its key find it, provided the
key did not occur. -/
lemma dictGet_append_fresh (k : String) (v : α) :
    ∀ d : List (String × α), hasKey d k = false →
      dictGet (d ++ [(k, v)]) k = some v := by
  intro d
  induction d with
  | nil => intro _; simp [dictGet_cons, dictGet_nil]
  | cons kv d' ih =>
      intro h
      have hk : ¬kv.1 = k := by
        intro hkk
        simp [hasKey, hkk] at h
      have h' : hasKey d' k = false := by simpa [hasKey, hk] using h
      simp only [List.cons_append, dictGet_cons,
        beq_eq_false_iff_ne.mpr hk, if_false]
      exact ih h'

/-- Appending an entry keyed k does not change lookups of other keys. -/
lemma dictGet_append_ne (k k2 : String) (v : α) (h : k2 ≠ k) :
    ∀ d : List (String × α), dictGet (d ++ [(k, v)]) k2 = dictGet d k2 := by
  intro d
  induction d with
  | nil => simp [dictGet_cons, dictGet_nil, beq_eq_false_iff_ne.mpr (Ne.symm h)]
  | cons kv d' ih => simp only [List.cons_append, dictGet_cons, ih]

/-- Python dict assignment: the assigned key maps to the new value. -/
lemma dictGet_dictSet_self (d : List (String × α)) (k : String) (v : α) :
    dictGet (dictSet d k v) k = some v := by
  unfold dictSet
  by_cases h : hasKey d k = true
  · rw [if_pos h]
    exact dictGet_map_replace_self k v d h
  · rw [if_neg h]
    exact dictGet_append_fresh k v d (by simpa using h)

/-- Python dict assignment: other keys are unchanged. -/
lemma dictGet_dictSet_ne (d : List (String × α)) (k k2 : String) (v : α)
    (h : k2 ≠ k) :
    dictGet (dictSet d k v) k2 = dictGet d k2 := by
  unfold dictSet
  by_cases hh : hasKey d k = true
  · rw [if_pos hh]
    exact dictGet_map_replace_ne k k2 v h d
  · rw [if_neg hh]
    exact dictGet_append_ne k k2 v h d

/-- C10 counterexample: the supplied extra keyword name key is not one of
the recognised names, yet constructing with key=7 creates a meta entry
keyed by that supplied name itself — the one name for which the claim's
no-entry-keyed-by-k clause fails, because the stored literal key
coincides with it. -/
theorem C10_counterexample :
    (¬("key" = "default" ∨ "key" = "many" ∨ "key" = "required"))
    ∧ (dictGet (initKwargsMeta [("key", .int 7)] []) "key" = some (.int 7)) := by
  refine ⟨by simp, ?_⟩
  simp [initKwargsMeta, dictSet, hasKey, dictGet]

/-- C10 (amended): for every Field constructed with an extra keyword
argument k=v where k is none of default, many, required, the constructor
stores the entry under the literal key key (mapping key to v) in the
shared meta mapping, discarding the supplied keyword name k; no entry
keyed by k itself is created — i.e. its lookup is unchanged — unless k is
itself the literal key, in which case the created entry's key coincides
with k. -/
theorem C10_meta_literal_key (k : String) (v : Value)
    (meta0 : List (String × Value))
    (hk : ¬(k = "default" ∨ k = "many" ∨ k = "required")) :
    (initKwargsMeta [(k, v)] meta0 = dictSet meta0 "key" v)
    ∧ (dictGet (initKwargsMeta [(k, v)] meta0) "key" = some v)
    ∧ (k ≠ "key" → dictGet (initKwargsMeta [(k, v)] meta0) k = dictGet meta0 k) := by
  have h1 : initKwargsMeta [(k, v)] meta0 = dictSet meta0 "key" v := by
    simp only [initKwargsMeta, List.foldl_cons, List.foldl_nil, if_neg hk]
  refine ⟨h1, ?_, fun hne => ?_⟩
  · rw [h1]
    exact dictGet_dictSet_self meta0 "key" v
  · rw [h1]
    exact dictGet_dictSet_ne meta0 "key" k v hne

/-- C10 witness: the extra keyword note=2 lands under the literal key
key and creates no entry keyed note. -/
theorem C10_meta_literal_key_witness :
    (¬("note" = "default" ∨ "note" = "many" ∨ "note" = "required"))
    ∧ (initKwargsMeta [("note", .int 2)] [] = dictSet [] "key" (.int 2))
    ∧ (dictGet (initKwargsMeta [("note", .int 2)] []) "key" = some (.int 2))
    ∧ (dictGet (initKwargsMeta [("note", .int 2)] []) "note"
        = dictGet ([] : List (String × Value)) "note") := by
  have hk : ¬("note" = "default" ∨ "note" = "many" ∨ "note" = "required") := by simp
  exact ⟨hk, (C10_meta_literal_key "note" (.int 2) [] hk).1,
    (C10_meta_literal_key "note" (.int 2) [] hk).2.1,
    (C10_meta_literal_key "note" (.int 2) [] hk).2.2 (by simp)⟩

/-! Helper lemmas about the registry-building dict operations. -/

lemma hasKey_eq_any_keys (d : List (String × α)) (k : String) :
    hasKey d k = (d.map Prod.fst).any (fun x => x == k) := by
  induction d with
  | nil => rfl
  | cons kv d' ih =>
      show (kv.1 == k || hasKey d' k)
        = ((kv.1 :: d'.map Prod.fst).any fun x => x == k)
      rw [List.any_cons, ih]

lemma hasKey_iff_mem (d : List (String × α)) (k : String) :
    hasKey d k = true ↔ k ∈ d.map Prod.fst := by
  rw [hasKey_eq_any_keys]
  simp [List.any_eq_true]

lemma hasKey_eq_false_of_not_mem (d : List (String × α)) (k : String)
    (h : k ∉ d.map Prod.fst) : hasKey d k = false := by
  cases hv : hasKey d k
  · rfl
  · exact absurd ((hasKey_iff_mem d k).mp hv) h

lemma hasKey_append (d1 d2 : List (String × α)) (k : String) :
    hasKey (d1 ++ d2) k = (hasKey d1 k || hasKey d2 k) := by
  simp [hasKey, List.any_append]

lemma dictGet_eq_none (d : List (String × α)) (k : String)
    (h : k ∉ d.map Prod.fst) : dictGet d k = none := by
  induction d with
  | nil => rfl
  | cons kv d' ih =>
      have h1 : ¬kv.1 = k := fun he => h (by simp [he])
      have h2 : k ∉ d'.map Prod.fst := fun hm => h (by simp [hm])
      rw [dictGet_cons, if_neg (by simp [h1]), ih h2]

lemma map_fst_map_replace (k : String) (v : α) :
    ∀ d : List (String × α),
      (d.map (fun kv => if kv.1 == k then (k, v) else kv)).map Prod.fst
        = d.map Prod.fst := by
  intro d
  induction d with
  | nil => rfl
  | cons kv d' ih =>
      by_cases hk : kv.1 = k
      · have hhead : (if kv.1 == k then (k, v) else kv) = (k, v) := by simp [hk]
        simp only [List.map_cons, hhead, ih]
        simp [hk]
      · have hhead : (if kv.1 == k then (k, v) else kv) = kv := by simp [hk]
        simp only [List.map_cons, hhead, ih]

lemma map_fst_dictSet (d : List (String × α)) (k : String) (v : α) :
    (dictSet d k v).map Prod.fst =
      if hasKey d k then d.map Prod.fst else d.map Prod.fst ++ [k] := by
  unfold dictSet
  by_cases h : hasKey d k = true
  · rw [if_pos h, if_pos h, map_fst_map_replace]
  · rw [if_neg h, if_neg h]
    simp

/-- Folding fresh, mutually distinct keys into a dict appends them in
order. -/
lemma foldl_dictSet_fresh :
    ∀ (ps init : List (String × α)), ((init ++ ps).map Prod.fst).Nodup →
      ps.foldl (fun d kv => dictSet d kv.1 kv.2) init = init ++ ps := by
  intro ps
  induction ps with
  | nil =>
      intro init _
      simp
  | cons p ps' ih =>
      intro init hnd
      have hsplit : init ++ p :: ps' = (init ++ [p]) ++ ps' := by simp
      have hdisj := (List.nodup_append.mp (by simpa using hnd)).2.2
      have hmem : p.1 ∉ init.map Prod.fst := fun hm => hdisj hm (by simp)
      have hfresh : hasKey init p.1 = false := hasKey_eq_false_of_not_mem _ _ hmem
      rw [List.foldl_cons]
      have hset : dictSet init p.1 p.2 = init ++ [p] := by
        unfold dictSet
        rw [if_neg (by simp [hfresh])]
      rw [hset, ih (init ++ [p]) (by rw [← hsplit]; exact hnd)]
      simp

/-- Folding a key-distinct list of pairs into an existing dict realises
the update-in-place rule: every existing key keeps its position and takes
the incoming value if one exists, and the genuinely new pairs are
appended in order. -/
lemma foldl_dictSet_overlay :
    ∀ (decl acc : List (String × α)), (decl.map Prod.fst).Nodup →
      decl.foldl (fun d kv => dictSet d kv.1 kv.2) acc
        = acc.map (fun kv => (kv.1, (dictGet decl kv.1).getD kv.2))
          ++ decl.filter (fun kv => !hasKey acc kv.1) := by
  intro decl
  induction decl with
  | nil =>
      intro acc _
      simp [dictGet_nil]
  | cons p decl' ih =>
      intro acc hnd
      rw [List.map_cons] at hnd
      have hp : p.1 ∉ decl'.map Prod.fst := (List.nodup_cons.mp hnd).1
      have hnd' := (List.nodup_cons.mp hnd).2
      rw [List.foldl_cons, ih (dictSet acc p.1 p.2) hnd']
      by_cases hin : hasKey acc p.1 = true
      · have hset : dictSet acc p.1 p.2
            = acc.map (fun kv => if kv.1 == p.1 then (p.1, p.2) else kv) := by
          unfold dictSet
          rw [if_pos hin]
        have hmapmap :
            (dictSet acc p.1 p.2).map
                (fun kv => (kv.1, (dictGet decl' kv.1).getD kv.2))
              = acc.map (fun kv => (kv.1, (dictGet (p :: decl') kv.1).getD kv.2)) := by
          rw [hset, List.map_map]
          refine List.map_congr_left ?_
          intro kv _
          by_cases hkv : kv.1 = p.1
          · have hhd : (if kv.1 == p.1 then (p.1, p.2) else kv) = (p.1, p.2) := by
              simp [hkv]
            simp only [Function.comp]
            rw [hhd, dictGet_eq_none decl' p.1 hp, dictGet_cons, hkv,
              if_pos (by simp)]
            simp
          · have hhd : (if kv.1 == p.1 then (p.1, p.2) else kv) = kv := by
              simp [hkv]
            have hne2 : ¬((p.1 == kv.1) = true) := by
              simp
              exact fun he => hkv he.symm
            simp only [Function.comp]
            rw [hhd, dictGet_cons, if_neg hne2]
        have hkeys : ∀ x, hasKey (dictSet acc p.1 p.2) x = hasKey acc x := by
          intro x
          rw [hasKey_eq_any_keys, hasKey_eq_any_keys, map_fst_dictSet, if_pos hin]
        have hfilter :
            decl'.filter (fun kv => !hasKey (dictSet acc p.1 p.2) kv.1)
              = decl'.filter (fun kv => !hasKey acc kv.1) := by
          refine List.filter_congr ?_
          intro kv _
          rw [hkeys]
        rw [hmapmap, hfilter]
        simp [List.filter_cons, hin]
      · have hinb : hasKey acc p.1 = false := by
          cases hv : hasKey acc p.1
          · rfl
          · exact absurd hv hin
        have hset : dictSet acc p.1 p.2 = acc ++ [p] := by
          unfold dictSet
          rw [if_neg (by simp [hinb])]
        have hmap :
            (acc ++ [p]).map (fun kv => (kv.1, (dictGet decl' kv.1).getD kv.2))
              = acc.map (fun kv => (kv.1, (dictGet (p :: decl') kv.1).getD kv.2))
                ++ [p] := by
          rw [List.map_append]
          congr 1
          · refine List.map_congr_left ?_
            intro kv hkv
            have hne : kv.1 ≠ p.1 := by
              intro he
              have : hasKey acc p.1 = true :=
                (hasKey_iff_mem acc p.1).mpr (List.mem_map.mpr ⟨kv, hkv, he⟩)
              rw [this] at hinb
              cases hinb
            simp [dictGet_cons, beq_eq_false_iff_ne.mpr (fun he => hne he.symm)]
          · simp [dictGet_cons, dictGet_eq_none decl' p.1 hp]
        have hfilter :
            decl'.filter (fun kv => !hasKey (acc ++ [p]) kv.1)
              = decl'.filter (fun kv => !hasKey acc kv.1) := by
          refine List.filter_congr ?_
          intro kv hkv
          have hne : kv.1 ≠ p.1 := fun he =>
            hp (he ▸ List.mem_map.mpr ⟨kv, hkv, rfl⟩)
          rw [hasKey_append]
          have hsingle : hasKey [p] kv.1 = false := by
            simp [hasKey, beq_eq_false_iff_ne.mpr (fun he => hne he.symm)]
          rw [hsingle, Bool.or_false]
        rw [hset, hmap, hfilter]
        simp [List.filter_cons, hinb]

lemma loadFields_cons_ok (Q : Elem → String → List Elem) (im : Bool) (root : Elem)
    (name : String) (f : FieldD) (rest : List (String × FieldD))
    (data : List (String × Value)) (v : Value)
    (hf : FieldD.load Q f root = .ok v) :
    loadFields Q im root ((name, f) :: rest) data
      = loadFields Q im root rest (dictSet data name v) := by
  rw [loadFields_cons, hf]

lemma loadFields_cons_err (Q : Elem → String → List Elem) (im : Bool) (root : Elem)
    (name : String) (f : FieldD) (rest : List (String × FieldD))
    (data : List (String × Value)) (e : Err)
    (hf : FieldD.load Q f root = .error e) :
    loadFields Q im root ((name, f) :: rest) data
      = if e.kind = ErrKind.missingFieldError then
          if f.required = some true ∨ im = false then .error e
          else loadFields Q im root rest data
        else .error e := by
  rw [loadFields_cons, hf]

/-- The names of a successful load's result mapping extend the
accumulator's names by a subsequence of the registry names, in registry
order. -/
lemma loadFields_keys_sublist (Q : Elem → String → List Elem) (im : Bool)
    (root : Elem) :
    ∀ (fields : List (String × FieldD)) (done data : List (String × Value)),
      loadFields Q im root fields done = .ok data →
      ∃ t, data.map Prod.fst = done.map Prod.fst ++ t
        ∧ t.Sublist (fields.map Prod.fst) := by
  intro fields
  induction fields with
  | nil =>
      intro done data h
      rw [loadFields_nil] at h
      cases h
      exact ⟨[], by simp, by simp⟩
  | cons nf rest ih =>
      intro done data h
      obtain ⟨name, f⟩ := nf
      cases hf : FieldD.load Q f root with
      | ok v =>
          rw [loadFields_cons_ok Q im root name f rest done v hf] at h
          obtain ⟨t, ht1, ht2⟩ := ih (dictSet done name v) data h
          by_cases hk : hasKey done name = true
          · rw [map_fst_dictSet, if_pos hk] at ht1
            exact ⟨t, ht1, ht2.trans (List.sublist_cons_self _ _)⟩
          · rw [map_fst_dictSet, if_neg hk] at ht1
            refine ⟨name :: t, ?_, List.Sublist.cons₂ _ ht2⟩
            rw [ht1]
            simp
      | error e =>
          rw [loadFields_cons_err Q im root name f rest done e hf] at h
          by_cases hkind : e.kind = ErrKind.missingFieldError
          · rw [if_pos hkind] at h
            by_cases hcond : f.required = some true ∨ im = false
            · rw [if_pos hcond] at h
              exact Except.noConfusion h
            · rw [if_neg hcond] at h
              obtain ⟨t, ht1, ht2⟩ := ih done data h
              exact ⟨t, ht1, ht2.trans (List.sublist_cons_self _ _)⟩
          · rw [if_neg hkind] at h
            exact Except.noConfusion h

/-- C3: the registry of a schema type equals the inherited registry
updated in place with the directly declared fields: a redeclared name
keeps its original position while its descriptor is replaced by the
declared one, and every new name is appended after all existing entries,
in declaration order; and the names of a load's result mapping follow
that registry order (they form a subsequence of it). -/
theorem C3_registry_merge (base_fields decl : List (String × FieldD))
    (hb : (base_fields.map Prod.fst).Nodup) (hd : (decl.map Prod.fst).Nodup) :
    (schemaFields base_fields decl
      = base_fields.map (fun kv => (kv.1, (dictGet decl kv.1).getD kv.2))
        ++ decl.filter (fun kv => !hasKey base_fields kv.1))
    ∧ (∀ (Q : Elem → String → List Elem) (im : Bool) (root : Elem)
        (data : List (String × Value)),
        loadFields Q im root (schemaFields base_fields decl) [] = .ok data →
        (data.map Prod.fst).Sublist ((schemaFields base_fields decl).map Prod.fst)) := by
  have h1 : schemaFields base_fields decl
      = base_fields.map (fun kv => (kv.1, (dictGet decl kv.1).getD kv.2))
        ++ decl.filter (fun kv => !hasKey base_fields kv.1) := by
    unfold schemaFields dictOfPairs
    rw [List.foldl_append, foldl_dictSet_fresh base_fields [] (by simpa using hb),
      List.nil_append, foldl_dictSet_overlay decl base_fields hd]
  refine ⟨h1, fun Q im root data h => ?_⟩
  obtain ⟨t, ht1, ht2⟩ := loadFields_keys_sublist Q im root _ [] data h
  simp only [List.map_nil, List.nil_append] at ht1
  rw [ht1]
  exact ht2

/-- Inherited registry fixture: a field on path A. -/
def fieldA : FieldD :=
  FieldD.mk .base (.single "A") castStr (.errClass .missingFieldError) false none

/-- Inherited registry fixture: a field on path B. -/
def fieldB : FieldD :=
  FieldD.mk .base (.single "B") castStr (.errClass .missingFieldError) false none

/-- Redeclaration fixture: a replacement field on path B2. -/
def fieldB2 : FieldD :=
  FieldD.mk .base (.single "B2") castStr (.errClass .missingFieldError) false none

/-- New-name fixture: a field on path C. -/
def fieldCx : FieldD :=
  FieldD.mk .base (.single "C") castStr (.errClass .missingFieldError) false none

/-- C3 witness: a subclass registry built from inherited names a, b where
the subclass redeclares b and adds c: b keeps its position with the new
descriptor and c is appended. -/
theorem C3_registry_merge_witness :
    (([("a", fieldA), ("b", fieldB)].map Prod.fst).Nodup
      ∧ ([("b", fieldB2), ("c", fieldCx)].map Prod.fst).Nodup)
    ∧ ((schemaFields [("a", fieldA), ("b", fieldB)] [("b", fieldB2), ("c", fieldCx)]
        = [("a", fieldA), ("b", fieldB)].map
            (fun kv => (kv.1, (dictGet [("b", fieldB2), ("c", fieldCx)] kv.1).getD kv.2))
          ++ [("b", fieldB2), ("c", fieldCx)].filter
              (fun kv => !hasKey [("a", fieldA), ("b", fieldB)] kv.1))
      ∧ (∀ (Q : Elem → String → List Elem) (im : Bool) (root : Elem)
          (data : List (String × Value)),
          loadFields Q im root (schemaFields [("a", fieldA), ("b", fieldB)]
            [("b", fieldB2), ("c", fieldCx)]) [] = .ok data →
          (data.map Prod.fst).Sublist ((schemaFields [("a", fieldA), ("b", fieldB)]
            [("b", fieldB2), ("c", fieldCx)]).map Prod.fst))) := by
  have hb : (([("a", fieldA), ("b", fieldB)]).map Prod.fst).Nodup := by
    simp
  have hd : (([("b", fieldB2), ("c", fieldCx)]).map Prod.fst).Nodup := by
    simp
  exact ⟨⟨hb, hd⟩, C3_registry_merge _ _ hb hd⟩

end Xmallow
